import Mathlib

/-!
Verification of the hearing-aid adjustment tool
(src/linux/hearing-aid-adjustments.py).

The development shallowly embeds the two core pieces of the program:

* the ATT session layer (`ATTManager.read`, `ATTManager.write`,
  `ATTManager.write_cccd`, `ATTManager.read_response`, the receive-loop
  demultiplexer `processPdu` / `runLoop` / `listen_notifications`, and the
  listener registry `register_listener`), and
* the binary settings codec (`parse_hearing_aid_settings`,
  `patchSettingsBuffer` / `send_hearing_aid_settings`) together with the
  balance transform of `HearingAidApp.send_settings`.

Modelling conventions:

* byte buffers are `List Nat` whose entries are bytes (`< 256` where it
  matters, stated as a hypothesis);
* IEEE-754 binary32 wire values are represented by their 32-bit bit
  pattern (a `Nat`); the Python code stores the corresponding double,
  and the float-to-double-to-float round trip is exact on bit patterns,
  so the pattern is a faithful representation of the stored value.
  `f32val` gives the rational value of a bit pattern (following the
  binary32 interpretation; exponent-255 patterns are given the value the
  same formula yields, NaN semantics being outside this rational model);
* Python floats appearing only in pure arithmetic (the balance transform)
  are modelled as rationals;
* the blocking 2.0-second wait on the response queue is modelled by an
  `Option (List Nat)` argument: `some r` is the response PDU delivered in
  time, `none` is the timeout, on which `queue.get` raises and
  `_read_response` converts the exception into its own raised exception
  (an `Except.error` here);
* the receive loop is driven by a trace of socket outcomes
  (`RecvOutcome`): a received PDU, a receive timeout (the 0.1 s poll
  timeout, on which the loop just continues), or a hard receive error
  (on which the loop breaks while `running` is still true).
-/

def OPCODE_READ_REQUEST : Nat := 0x0A

def OPCODE_WRITE_REQUEST : Nat := 0x12

def OPCODE_HANDLE_VALUE_NTF : Nat := 0x1B

/-- Named attribute handles of the constant table `ATT_HANDLES`. -/
inductive HandleName
  | TRANSPARENCY
  | LOUD_SOUND_REDUCTION
  | HEARING_AID
deriving DecidableEq

/-- Fixed attribute handle table (source lines 22-26). -/
def ATT_HANDLES : HandleName → Nat
  | HandleName.TRANSPARENCY => 0x18
  | HandleName.LOUD_SOUND_REDUCTION => 0x1B
  | HandleName.HEARING_AID => 0x2A

/-- Client characteristic configuration handles: base handle plus one
(source lines 28-32). -/
def ATT_CCCD_HANDLES : HandleName → Nat
  | HandleName.TRANSPARENCY => ATT_HANDLES HandleName.TRANSPARENCY + 1
  | HandleName.LOUD_SOUND_REDUCTION => ATT_HANDLES HandleName.LOUD_SOUND_REDUCTION + 1
  | HandleName.HEARING_AID => ATT_HANDLES HandleName.HEARING_AID + 1

/-- Timeout (seconds) of `ATTManager._read_response` (source line 135). -/
def READ_RESPONSE_TIMEOUT : ℚ := 2

/-- Embeds `ATTManager._read_response`: `self.responses.get(timeout=timeout)[1:]`.
The `Option` argument is the outcome of the bounded queue wait: `none` means
no response PDU arrived within the timeout, in which case the method raises
(`Except.error`); otherwise the leading opcode byte is stripped. -/
def ATTManager.read_response (q : Option (List Nat)) : Except Unit (List Nat) :=
  match q with
  | some r => Except.ok (r.drop 1)
  | none => Except.error ()

/-- Embeds `ATTManager.read` (source lines 84-93): builds the Read-Request
PDU `[0x0A, lsb, msb]`, sends it (first component), and waits for the
response, propagating a timeout failure (second component). -/
def ATTManager.read (h : HandleName) (q : Option (List Nat)) :
    List Nat × Except Unit (List Nat) :=
  let handle_value := ATT_HANDLES h
  let lsb := handle_value &&& 0xFF
  let msb := (handle_value >>> 8) &&& 0xFF
  ([OPCODE_READ_REQUEST, lsb, msb], ATTManager.read_response q)

/-- Embeds `ATTManager.write` (source lines 95-106): builds the
Write-Request PDU `[0x12, lsb, msb] + value`, sends it, and awaits the
response inside a `try/except` that swallows any failure. -/
def ATTManager.write (h : HandleName) (value : List Nat) (q : Option (List Nat)) :
    List Nat × Except Unit Unit :=
  let handle_value := ATT_HANDLES h
  let lsb := handle_value &&& 0xFF
  let msb := (handle_value >>> 8) &&& 0xFF
  ([OPCODE_WRITE_REQUEST, lsb, msb] ++ value,
    match ATTManager.read_response q with
    | Except.ok _ => Except.ok ()
    | Except.error _ => Except.ok ())

/-- Embeds `ATTManager.write_cccd` (source lines 108-119): same as `write`
but addressed to the handle's configuration handle. -/
def ATTManager.write_cccd (h : HandleName) (value : List Nat) (q : Option (List Nat)) :
    List Nat × Except Unit Unit :=
  let handle_value := ATT_CCCD_HANDLES h
  let lsb := handle_value &&& 0xFF
  let msb := (handle_value >>> 8) &&& 0xFF
  ([OPCODE_WRITE_REQUEST, lsb, msb] ++ value,
    match ATTManager.read_response q with
    | Except.ok _ => Except.ok ()
    | Except.error _ => Except.ok ())

/-- Listener registry: association list from handle to the listeners
registered for it, in registration order (embeds `self.listeners`,
a `Dict[int, List]`; listeners are identified by a `Nat` id). -/
def lookupListeners : List (Nat × List Nat) → Nat → List Nat
  | [], _ => []
  | (k, v) :: rest, h => if k = h then v else lookupListeners rest h

/-- Embeds `ATTManager.register_listener` (source lines 69-73): create the
entry if absent, then append the listener. -/
def register_listener : List (Nat × List Nat) → Nat → Nat → List (Nat × List Nat)
  | [], h, l => [(h, [l])]
  | (k, v) :: rest, h, l =>
    if k = h then (k, v ++ [l]) :: rest else (k, v) :: register_listener rest h l

/-- Observable actions of one receive-loop iteration (and of the post-loop
reconnect code): a listener invocation, a PDU handed to the response queue
(for the single waiting requester), a reconnection attempt, and a logged
reconnection failure. -/
inductive LoopEvent
  | notify (listenerId : Nat) (value : List Nat)
  | response (pdu : List Nat)
  | reconnect
  | reconnectFailed
deriving DecidableEq

/-- Outcome of one `ATTManager._read_pdu` call as seen by the receive loop:
a PDU, a benign socket timeout (`None`, loop continues), or a hard receive
error (the re-raised exception, on which the loop breaks). -/
inductive RecvOutcome
  | pdu (data : List Nat)
  | timeout
  | failure
deriving DecidableEq

/-- Embeds the PDU-dispatch body of `ATTManager._listen_notifications`
(source lines 153-162): a PDU whose first byte is the Handle-Value
Notification opcode is decoded (handle from bytes 1 and 2, value from
byte 3 on) and delivered to the listeners registered for that handle, in
order; any other PDU is put on the response queue.  The Python code indexes
`pdu[1]` and `pdu[2]` without a length check; the resulting `IndexError`
on a too-short notification PDU is the `Except.error` case. -/
def processPdu (ls : List (Nat × List Nat)) (pdu : List Nat) :
    Except Unit (List LoopEvent) :=
  match pdu with
  | [] => Except.ok [LoopEvent.response []]
  | b0 :: rest =>
    if b0 = OPCODE_HANDLE_VALUE_NTF then
      match rest with
      | b1 :: b2 :: value =>
        Except.ok ((lookupListeners ls (b1 ||| (b2 <<< 8))).map
          fun l => LoopEvent.notify l value)
      | _ => Except.error ()
    else Except.ok [LoopEvent.response (b0 :: rest)]

/-- Embeds the `while self.running` receive loop (source lines 146-162),
driven by a trace of socket outcomes.  The trace ending corresponds to
`running` having been set to false (shutdown); a `failure` outcome makes
the loop break while `running` is still true (second component `true`).
An exception escaping the loop body (`processPdu` error) propagates out of
the whole function, as in Python. -/
def runLoop (ls : List (Nat × List Nat)) :
    List RecvOutcome → Except Unit (List LoopEvent × Bool)
  | [] => Except.ok ([], false)
  | RecvOutcome.timeout :: rest => runLoop ls rest
  | RecvOutcome.failure :: _ => Except.ok ([], true)
  | RecvOutcome.pdu d :: rest =>
    match processPdu ls d with
    | Except.error e => Except.error e
    | Except.ok evs =>
      match runLoop ls rest with
      | Except.error e => Except.error e
      | Except.ok (evs2, broke) => Except.ok (evs ++ evs2, broke)

/-- Embeds `ATTManager._listen_notifications` (source lines 144-168): run
the receive loop, and if it stopped while `running` is still true, attempt
exactly one reconnection (`self.connect()` inside `try/except`), logging a
failure.  `reconnectOk` is the outcome of that single `connect()` call; the
final `Bool` is whether the session ends up connected. -/
def listen_notifications (ls : List (Nat × List Nat)) (trace : List RecvOutcome)
    (reconnectOk : Bool) : Except Unit (List LoopEvent × Bool) :=
  match runLoop ls trace with
  | Except.error e => Except.error e
  | Except.ok (evs, broke) =>
    if broke then
      if reconnectOk then Except.ok (evs ++ [LoopEvent.reconnect], true)
      else Except.ok (evs ++ [LoopEvent.reconnect, LoopEvent.reconnectFailed], false)
    else Except.ok (evs, false)

/-- Rational value of an IEEE-754 binary32 bit pattern, as produced by
`struct.unpack` with a little-endian float format.  Sign, exponent and
mantissa fields follow the standard layout; subnormals use the
exponent-0 formula.  Exponent-255 patterns (infinities, NaN) are given
the value of the same formula; their special semantics lie outside this
rational model and are not relied on by any theorem below. -/
def f32val (w : Nat) : ℚ :=
  let s : Nat := w / 2 ^ 31 % 2
  let e : Nat := w / 2 ^ 23 % 2 ^ 8
  let m : Nat := w % 2 ^ 23
  let mag : ℚ :=
    if e = 0 then (m : ℚ) / 2 ^ 149
    else ((2 ^ 23 + m : ℕ) : ℚ) * 2 ^ e / 2 ^ 150
  if s = 1 then -mag else mag

/-- Little-endian 32-bit word at `off` of a byte buffer (the bit pattern
that `struct.unpack` reads with a little-endian float format). -/
def readU32LE (data : List Nat) (off : Nat) : Nat :=
  data.getD off 0 + data.getD (off + 1) 0 * 256 + data.getD (off + 2) 0 * 256 ^ 2
    + data.getD (off + 3) 0 * 256 ^ 3

/-- Byte `k` (little-endian) of a 32-bit word. -/
def wbyte (w k : Nat) : Nat := w / 256 ^ k % 256

/-- Embeds the `HearingAidSettings` record (source lines 170-186).  Float
fields hold binary32 bit patterns (see the module comment); the derived
aggregates `net_amplification` and `balance` are rationals; the
conversation-boost fields are the decoded booleans. -/
structure HearingAidSettings where
  left_eq : List Nat
  right_eq : List Nat
  left_amplification : Nat
  right_amplification : Nat
  left_tone : Nat
  right_tone : Nat
  left_conversation_boost : Bool
  right_conversation_boost : Bool
  left_ambient_noise_reduction : Nat
  right_ambient_noise_reduction : Nat
  net_amplification : ℚ
  balance : ℚ
  own_voice_amplification : Nat

/-- Embeds `parse_hearing_aid_settings` (source lines 188-242): reject
buffers shorter than 104 bytes, skip the 4-byte header, read the
fixed-offset little-endian fields, decode the conversation-boost floats
with the `> 0.5` test, and derive the clamped aggregates. -/
def parse_hearing_aid_settings (data : List Nat) : Option HearingAidSettings :=
  if data.length < 104 then none
  else
    let left_eq : List Nat := (List.range 8).map fun i => readU32LE data (4 + 4 * i)
    let left_amp := readU32LE data 36
    let left_tone := readU32LE data 40
    let left_conv : Bool := decide (f32val (readU32LE data 44) > 1 / 2)
    let left_anr := readU32LE data 48
    let right_eq : List Nat := (List.range 8).map fun i => readU32LE data (52 + 4 * i)
    let right_amp := readU32LE data 84
    let right_tone := readU32LE data 88
    let right_conv : Bool := decide (f32val (readU32LE data 92) > 1 / 2)
    let right_anr := readU32LE data 96
    let own_voice := readU32LE data 100
    let avg : ℚ := (f32val left_amp + f32val right_amp) / 2
    let amplification : ℚ := max (-1) (min 1 avg)
    let diff : ℚ := f32val right_amp - f32val left_amp
    let balance : ℚ := max (-1) (min 1 diff)
    some ⟨left_eq, right_eq, left_amp, right_amp, left_tone, right_tone,
      left_conv, right_conv, left_anr, right_anr, amplification, balance, own_voice⟩

/-- Write the four little-endian bytes of a 32-bit word at `off`
(embeds one `struct.pack_into` call with a little-endian float format). -/
def packU32LE (buf : List Nat) (off w : Nat) : List Nat :=
  (((buf.set off (w % 256)).set (off + 1) (w / 256 % 256)).set
    (off + 2) (w / 256 ^ 2 % 256)).set (off + 3) (w / 256 ^ 3 % 256)

/-- Write consecutive 32-bit words starting at `off` (embeds the
`for i in range(8)` equalizer loops; the callers always pass lists of
exactly eight words, which Python requires on pain of an `IndexError`). -/
def packList (buf : List Nat) (off : Nat) : List Nat → List Nat
  | [] => buf
  | w :: ws => packList (packU32LE buf off w) (off + 4) ws

/-- Bit pattern written for a conversation-boost boolean:
`1.0 if conv else 0.0` packed as binary32. -/
def boolWord (b : Bool) : Nat := if b then 0x3F800000 else 0

/-- Embeds the buffer-patching part of `send_hearing_aid_settings`
(source lines 250-272): start from the prior buffer, set the marker byte
at offset 2 to `0x64`, and overwrite the fixed-offset fields from the
settings record. -/
def patchSettingsBuffer (data : List Nat) (s : HearingAidSettings) : List Nat :=
  let buffer := data.set 2 0x64
  let buffer := packList buffer 4 s.left_eq
  let buffer := packU32LE buffer 36 s.left_amplification
  let buffer := packU32LE buffer 40 s.left_tone
  let buffer := packU32LE buffer 44 (boolWord s.left_conversation_boost)
  let buffer := packU32LE buffer 48 s.left_ambient_noise_reduction
  let buffer := packList buffer 52 s.right_eq
  let buffer := packU32LE buffer 84 s.right_amplification
  let buffer := packU32LE buffer 88 s.right_tone
  let buffer := packU32LE buffer 92 (boolWord s.right_conversation_boost)
  let buffer := packU32LE buffer 96 s.right_ambient_noise_reduction
  packU32LE buffer 100 s.own_voice_amplification

/-- Embeds `send_hearing_aid_settings` (source lines 244-275) with the
freshly read prior buffer as input: a prior buffer shorter than 104 bytes
aborts the write (`none`, nothing written); otherwise the patched buffer
is written (`some`). -/
def send_hearing_aid_settings (data : List Nat) (s : HearingAidSettings) :
    Option (List Nat) :=
  if data.length < 104 then none else some (patchSettingsBuffer data s)

/-- Embeds the per-ear balance transform of `HearingAidApp.send_settings`
(source lines 435-436): `(left_amp, right_amp)` from aggregate
amplification and balance. -/
def balanceTransform (amp balance : ℚ) : ℚ × ℚ :=
  (if balance < 0 then amp + (1 / 2 - balance) * amp * 2 else amp,
   if balance > 0 then amp + (balance - 1 / 2) * amp * 2 else amp)

/-- All-zero 104-byte buffer (a minimal valid settings buffer). -/
def z104 : List Nat := List.replicate 104 0

/-- All-zero 103-byte buffer (one byte short of valid). -/
def z103 : List Nat := List.replicate 103 0

/-- Valid 104-byte buffer whose left conversation-boost field (offsets
44-47) holds the binary32 pattern of 0.7 (`0x3F333333`, little-endian). -/
def cex104 : List Nat :=
  List.replicate 44 0 ++ [0x33, 0x33, 0x33, 0x3F] ++ List.replicate 56 0

/-- Registry with two listeners (ids 1 and 2, registered in that order)
for the HearingAid handle `0x2A`. -/
def demoListeners : List (Nat × List Nat) :=
  register_listener (register_listener [] 0x2A 1) 0x2A 2

/-- Concrete settings record used to instantiate universally quantified
theorems. -/
def defaultSettings : HearingAidSettings :=
  ⟨List.replicate 8 0, List.replicate 8 0, 0, 0, 0, 0, false, false, 0, 0, 0, 0, 0⟩

/-- Record produced by `parse_hearing_aid_settings` on a valid buffer,
spelled out field by field (same reads, same derived values). -/
def parsedRecord (data : List Nat) : HearingAidSettings :=
  ⟨(List.range 8).map fun j => readU32LE data (4 + 4 * j),
   (List.range 8).map fun j => readU32LE data (52 + 4 * j),
   readU32LE data 36, readU32LE data 84, readU32LE data 40, readU32LE data 88,
   decide (f32val (readU32LE data 44) > 1 / 2),
   decide (f32val (readU32LE data 92) > 1 / 2),
   readU32LE data 48, readU32LE data 96,
   max (-1) (min 1 ((f32val (readU32LE data 36) + f32val (readU32LE data 84)) / 2)),
   max (-1) (min 1 (f32val (readU32LE data 84) - f32val (readU32LE data 36))),
   readU32LE data 100⟩

theorem getD_set_ne {l : List Nat} {i j v d : Nat} (h : i ≠ j) :
    (l.set i v).getD j d = l.getD j d := by
  simp [List.getD_eq_getElem?_getD, List.getElem?_set_ne h]

theorem getD_set_self {l : List Nat} {i v d : Nat} (h : i < l.length) :
    (l.set i v).getD i d = v := by
  simp [List.getD_eq_getElem?_getD, List.getElem?_set_self h]

theorem length_packU32LE (buf : List Nat) (off w : Nat) :
    (packU32LE buf off w).length = buf.length := by
  simp [packU32LE]

theorem length_packList (ws : List Nat) : ∀ (buf : List Nat) (off : Nat),
    (packList buf off ws).length = buf.length := by
  induction ws with
  | nil => intro buf off; rfl
  | cons w ws ih =>
    intro buf off
    show (packList (packU32LE buf off w) (off + 4) ws).length = buf.length
    rw [ih, length_packU32LE]

theorem getD_packU32LE_ne (buf : List Nat) (off w i : Nat)
    (h : ¬(off ≤ i ∧ i < off + 4)) :
    (packU32LE buf off w).getD i 0 = buf.getD i 0 := by
  unfold packU32LE
  rw [getD_set_ne (by omega), getD_set_ne (by omega), getD_set_ne (by omega),
    getD_set_ne (by omega)]

theorem getD_packU32LE (buf : List Nat) (off w i : Nat) (hoff : off + 3 < buf.length) :
    (packU32LE buf off w).getD i 0 =
      if off ≤ i ∧ i < off + 4 then wbyte w (i - off) else buf.getD i 0 := by
  by_cases h0 : i = off
  · subst h0
    rw [if_pos (by omega)]
    unfold packU32LE
    rw [getD_set_ne (by omega), getD_set_ne (by omega), getD_set_ne (by omega),
      getD_set_self (by omega)]
    simp [wbyte]
  · by_cases h1 : i = off + 1
    · subst h1
      rw [if_pos (by omega)]
      unfold packU32LE
      rw [getD_set_ne (by omega), getD_set_ne (by omega),
        getD_set_self (by simp only [List.length_set]; omega)]
      have e : off + 1 - off = 1 := by omega
      rw [e]
      simp [wbyte]
    · by_cases h2 : i = off + 2
      · subst h2
        rw [if_pos (by omega)]
        unfold packU32LE
        rw [getD_set_ne (by omega),
          getD_set_self (by simp only [List.length_set]; omega)]
        have e : off + 2 - off = 2 := by omega
        rw [e]
        simp [wbyte]
      · by_cases h3 : i = off + 3
        · subst h3
          rw [if_pos (by omega)]
          unfold packU32LE
          rw [getD_set_self (by simp only [List.length_set]; omega)]
          have e : off + 3 - off = 3 := by omega
          rw [e]
          simp [wbyte]
        · rw [if_neg (by omega), getD_packU32LE_ne buf off w i (by omega)]

theorem getD_packList_ne (ws : List Nat) : ∀ (buf : List Nat) (off i : Nat),
    ¬(off ≤ i ∧ i < off + 4 * ws.length) →
    (packList buf off ws).getD i 0 = buf.getD i 0 := by
  induction ws with
  | nil => intro buf off i _; rfl
  | cons w ws ih =>
    intro buf off i h
    rw [List.length_cons] at h
    show (packList (packU32LE buf off w) (off + 4) ws).getD i 0 = buf.getD i 0
    rw [ih (packU32LE buf off w) (off + 4) i (by omega),
      getD_packU32LE_ne buf off w i (by omega)]

theorem getD_packList (ws : List Nat) : ∀ (buf : List Nat) (off i : Nat),
    off + 4 * ws.length ≤ buf.length →
    (packList buf off ws).getD i 0 =
      if off ≤ i ∧ i < off + 4 * ws.length
      then wbyte (ws.getD ((i - off) / 4) 0) ((i - off) % 4)
      else buf.getD i 0 := by
  induction ws with
  | nil =>
    intro buf off i _
    rw [if_neg (by simp only [List.length_nil]; omega)]
    rfl
  | cons w ws ih =>
    intro buf off i hlen
    rw [List.length_cons] at hlen
    show (packList (packU32LE buf off w) (off + 4) ws).getD i 0 = _
    rw [ih (packU32LE buf off w) (off + 4) i (by rw [length_packU32LE]; omega),
      getD_packU32LE buf off w i (by omega)]
    by_cases hin : off + 4 ≤ i ∧ i < off + 4 + 4 * ws.length
    · rw [if_pos hin, if_pos (by simp only [List.length_cons]; omega)]
      have e1 : (i - off) / 4 = (i - (off + 4)) / 4 + 1 := by omega
      have e2 : (i - off) % 4 = (i - (off + 4)) % 4 := by omega
      rw [e1, e2, List.getD_cons_succ]
    · rw [if_neg hin]
      by_cases hfirst : off ≤ i ∧ i < off + 4
      · rw [if_pos hfirst, if_pos (by simp only [List.length_cons]; omega)]
        have e1 : (i - off) / 4 = 0 := by omega
        have e2 : (i - off) % 4 = i - off := by omega
        rw [e1, e2, List.getD_cons_zero]
      · rw [if_neg hfirst, if_neg (by simp only [List.length_cons]; omega)]

theorem getD_lt_256 (data : List Nat) (hb : ∀ b ∈ data, b < 256) (j : Nat)
    (h : j < data.length) : data.getD j 0 < 256 := by
  have hm : data.getD j 0 ∈ data := by
    rw [List.getD_eq_getElem?_getD, List.getElem?_eq_getElem h]
    exact List.getElem_mem h
  exact hb _ hm

theorem wbyte_readU32LE (data : List Nat) (off k : Nat) (hk : k < 4)
    (hoff : off + 3 < data.length) (hb : ∀ b ∈ data, b < 256) :
    wbyte (readU32LE data off) k = data.getD (off + k) 0 := by
  have h0 := getD_lt_256 data hb off (by omega)
  have h1 := getD_lt_256 data hb (off + 1) (by omega)
  have h2 := getD_lt_256 data hb (off + 2) (by omega)
  have h3 := getD_lt_256 data hb (off + 3) (by omega)
  unfold wbyte readU32LE
  simp only [List.getD_eq_getElem?_getD] at h0 h1 h2 h3 ⊢
  interval_cases k <;> norm_num <;> omega

theorem length_patchSettingsBuffer (data : List Nat) (s : HearingAidSettings) :
    (patchSettingsBuffer data s).length = data.length := by
  unfold patchSettingsBuffer
  rw [length_packU32LE, length_packU32LE, length_packU32LE, length_packU32LE,
    length_packU32LE, length_packList, length_packU32LE, length_packU32LE,
    length_packU32LE, length_packU32LE, length_packList, List.length_set]

theorem getD_patch_untouched (data : List Nat) (s : HearingAidSettings)
    (h8l : s.left_eq.length = 8) (h8r : s.right_eq.length = 8) (i : Nat)
    (h2 : i ≠ 2) (h : ¬(4 ≤ i ∧ i < 104)) :
    (patchSettingsBuffer data s).getD i 0 = data.getD i 0 := by
  unfold patchSettingsBuffer
  rw [getD_packU32LE_ne _ _ _ _ (by omega),
    getD_packU32LE_ne _ _ _ _ (by omega),
    getD_packU32LE_ne _ _ _ _ (by omega),
    getD_packU32LE_ne _ _ _ _ (by omega),
    getD_packU32LE_ne _ _ _ _ (by omega),
    getD_packList_ne _ _ _ _ (by rw [h8r]; omega),
    getD_packU32LE_ne _ _ _ _ (by omega),
    getD_packU32LE_ne _ _ _ _ (by omega),
    getD_packU32LE_ne _ _ _ _ (by omega),
    getD_packU32LE_ne _ _ _ _ (by omega),
    getD_packList_ne _ _ _ _ (by rw [h8l]; omega),
    getD_set_ne (by omega)]

theorem getD_patch_marker (data : List Nat) (s : HearingAidSettings)
    (hlen : 2 < data.length) :
    (patchSettingsBuffer data s).getD 2 0 = 0x64 := by
  unfold patchSettingsBuffer
  rw [getD_packU32LE_ne _ _ _ _ (by omega),
    getD_packU32LE_ne _ _ _ _ (by omega),
    getD_packU32LE_ne _ _ _ _ (by omega),
    getD_packU32LE_ne _ _ _ _ (by omega),
    getD_packU32LE_ne _ _ _ _ (by omega),
    getD_packList_ne _ _ _ _ (by omega),
    getD_packU32LE_ne _ _ _ _ (by omega),
    getD_packU32LE_ne _ _ _ _ (by omega),
    getD_packU32LE_ne _ _ _ _ (by omega),
    getD_packU32LE_ne _ _ _ _ (by omega),
    getD_packList_ne _ _ _ _ (by omega),
    getD_set_self hlen]

theorem lor_shift_eq_add (b1 b2 : Nat) (h : b1 < 256) :
    b1 ||| (b2 <<< 8) = b1 + 256 * b2 := by
  rw [Nat.shiftLeft_eq, Nat.or_comm, Nat.mul_comm,
    ← Nat.mul_add_lt_is_or (show b1 < 2 ^ 8 by omega) b2]
  norm_num
  omega

theorem lookup_register_listener (ls : List (Nat × List Nat)) (h l : Nat) :
    lookupListeners (register_listener ls h l) h = lookupListeners ls h ++ [l] := by
  induction ls with
  | nil => simp [register_listener, lookupListeners]
  | cons p rest ih =>
    obtain ⟨k, v⟩ := p
    by_cases hk : k = h
    · subst hk
      simp [register_listener, lookupListeners]
    · simp [register_listener, lookupListeners, hk, ih]

theorem processPdu_no_reconnect (ls : List (Nat × List Nat)) (pdu : List Nat)
    (evs : List LoopEvent) (h : processPdu ls pdu = Except.ok evs) :
    LoopEvent.reconnect ∉ evs ∧ LoopEvent.reconnectFailed ∉ evs := by
  rcases pdu with _ | ⟨b0, rest⟩
  · simp only [processPdu, Except.ok.injEq] at h
    subst h
    simp
  · by_cases hb : b0 = OPCODE_HANDLE_VALUE_NTF
    · rcases rest with _ | ⟨b1, rest2⟩
      · simp [processPdu, hb] at h
      · rcases rest2 with _ | ⟨b2, value⟩
        · simp [processPdu, hb] at h
        · simp only [processPdu, hb, if_pos, Except.ok.injEq] at h
          subst h
          constructor <;> · intro hm
                            simp [List.mem_map] at hm
    · simp only [processPdu, if_neg hb, Except.ok.injEq] at h
      subst h
      simp

theorem runLoop_no_reconnect (trace : List RecvOutcome) :
    ∀ (ls : List (Nat × List Nat)) (evs : List LoopEvent) (b : Bool),
    runLoop ls trace = Except.ok (evs, b) →
    LoopEvent.reconnect ∉ evs ∧ LoopEvent.reconnectFailed ∉ evs := by
  induction trace with
  | nil =>
    intro ls evs b h
    simp only [runLoop, Except.ok.injEq, Prod.mk.injEq] at h
    obtain ⟨h1, h2⟩ := h
    subst h1
    simp
  | cons o rest ih =>
    intro ls evs b h
    cases o with
    | timeout =>
      simp only [runLoop] at h
      exact ih ls evs b h
    | failure =>
      simp only [runLoop, Except.ok.injEq, Prod.mk.injEq] at h
      obtain ⟨h1, h2⟩ := h
      subst h1
      simp
    | pdu d =>
      simp only [runLoop] at h
      cases hp : processPdu ls d with
      | error e =>
        rw [hp] at h
        simp at h
      | ok evs1 =>
        rw [hp] at h
        cases hr : runLoop ls rest with
        | error e =>
          rw [hr] at h
          simp at h
        | ok p =>
          obtain ⟨evs2, b2⟩ := p
          rw [hr] at h
          simp only [Except.ok.injEq, Prod.mk.injEq] at h
          obtain ⟨h1, h2⟩ := h
          subst h1
          have n1 := processPdu_no_reconnect ls d evs1 hp
          have n2 := ih ls evs2 b2 hr
          constructor
          · intro hm
            rcases List.mem_append.mp hm with hm | hm
            · exact n1.1 hm
            · exact n2.1 hm
          · intro hm
            rcases List.mem_append.mp hm with hm | hm
            · exact n1.2 hm
            · exact n2.2 hm

theorem getD_range_map (f : Nat → Nat) (n j : Nat) (h : j < n) :
    ((List.range n).map f).getD j 0 = f j := by
  rw [List.getD_eq_getElem?_getD, List.getElem?_map, List.getElem?_range h]
  rfl

theorem parse_eq_parsedRecord (data : List Nat) (h : ¬data.length < 104) :
    parse_hearing_aid_settings data = some (parsedRecord data) := by
  unfold parse_hearing_aid_settings parsedRecord
  rw [if_neg h]

set_option maxHeartbeats 2000000 in
theorem getD_patch_parsedRecord (data : List Nat) (hlen : 104 ≤ data.length)
    (hb : ∀ b ∈ data, b < 256) (i : Nat) (h2 : i ≠ 2)
    (hc1 : ¬(44 ≤ i ∧ i < 48)) (hc2 : ¬(92 ≤ i ∧ i < 96)) :
    (patchSettingsBuffer data (parsedRecord data)).getD i 0 = data.getD i 0 := by
  unfold patchSettingsBuffer
  rw [getD_packU32LE _ 100 _ i
      (by simp only [length_packU32LE, length_packList, List.length_set]; omega),
    getD_packU32LE _ 96 _ i
      (by simp only [length_packU32LE, length_packList, List.length_set]; omega),
    getD_packU32LE _ 92 _ i
      (by simp only [length_packU32LE, length_packList, List.length_set]; omega),
    getD_packU32LE _ 88 _ i
      (by simp only [length_packU32LE, length_packList, List.length_set]; omega),
    getD_packU32LE _ 84 _ i
      (by simp only [length_packU32LE, length_packList, List.length_set]; omega),
    getD_packList _ _ 52 i
      (by simp only [length_packU32LE, length_packList, List.length_set, parsedRecord,
        List.length_map, List.length_range]; omega),
    getD_packU32LE _ 48 _ i
      (by simp only [length_packU32LE, length_packList, List.length_set]; omega),
    getD_packU32LE _ 44 _ i
      (by simp only [length_packU32LE, length_packList, List.length_set]; omega),
    getD_packU32LE _ 40 _ i
      (by simp only [length_packU32LE, length_packList, List.length_set]; omega),
    getD_packU32LE _ 36 _ i
      (by simp only [length_packU32LE, length_packList, List.length_set]; omega),
    getD_packList _ _ 4 i
      (by simp only [length_packU32LE, length_packList, List.length_set, parsedRecord,
        List.length_map, List.length_range]; omega),
    getD_set_ne (by omega)]
  simp only [parsedRecord, List.length_map, List.length_range]
  split_ifs with hr1 hr2 hr3 hr4 hr5 hr6 hr7 hr8 hr9
  · rw [wbyte_readU32LE data 100 (i - 100) (by omega) (by omega) hb,
      show 100 + (i - 100) = i by omega]
  · rw [wbyte_readU32LE data 96 (i - 96) (by omega) (by omega) hb,
      show 96 + (i - 96) = i by omega]
  · rw [wbyte_readU32LE data 88 (i - 88) (by omega) (by omega) hb,
      show 88 + (i - 88) = i by omega]
  · rw [wbyte_readU32LE data 84 (i - 84) (by omega) (by omega) hb,
      show 84 + (i - 84) = i by omega]
  · rw [getD_range_map _ 8 _ (by omega),
      wbyte_readU32LE data (52 + 4 * ((i - 52) / 4)) ((i - 52) % 4) (by omega)
        (by omega) hb,
      show 52 + 4 * ((i - 52) / 4) + (i - 52) % 4 = i by omega]
  · rw [wbyte_readU32LE data 48 (i - 48) (by omega) (by omega) hb,
      show 48 + (i - 48) = i by omega]
  · rw [wbyte_readU32LE data 40 (i - 40) (by omega) (by omega) hb,
      show 40 + (i - 40) = i by omega]
  · rw [wbyte_readU32LE data 36 (i - 36) (by omega) (by omega) hb,
      show 36 + (i - 36) = i by omega]
  · rw [getD_range_map _ 8 _ (by omega),
      wbyte_readU32LE data (4 + 4 * ((i - 4) / 4)) ((i - 4) % 4) (by omega)
        (by omega) hb,
      show 4 + 4 * ((i - 4) / 4) + (i - 4) % 4 = i by omega]
  · rfl

/-- C2: the balance transform of `HearingAidApp.send_settings` satisfies:
for `balance < 0`, `left = amp + (0.5 - balance) * amp * 2` and
`right = amp`; for `balance > 0`, `left = amp` and
`right = amp + (balance - 0.5) * amp * 2`; and for `balance = 0` it is the
identity `(amp, amp)` — for every amplification `amp`, negative values
included, with no clamping of the per-ear results. -/
theorem balanceTransform_spec (amp bal : ℚ) :
    (bal < 0 → balanceTransform amp bal = (amp + (1 / 2 - bal) * amp * 2, amp)) ∧
    (0 < bal → balanceTransform amp bal = (amp, amp + (bal - 1 / 2) * amp * 2)) ∧
    (bal = 0 → balanceTransform amp bal = (amp, amp)) := by
  refine ⟨fun h => ?_, fun h => ?_, fun h => ?_⟩
  · unfold balanceTransform
    rw [if_pos h, if_neg (not_lt.mpr (le_of_lt h))]
  · unfold balanceTransform
    rw [if_neg (not_lt.mpr (le_of_lt h)), if_pos h]
  · subst h
    unfold balanceTransform
    norm_num

/-- Witness for C2 at concrete inputs, including the spec's boundary
example `balanceTransform 0.4 (-1)` and a negative amplification. -/
theorem balanceTransform_spec_witness :
    balanceTransform (2 / 5) (-1) = (2 / 5 + (1 / 2 - (-1)) * (2 / 5) * 2, 2 / 5) ∧
    balanceTransform (-3) 1 = (-3, -3 + (1 - 1 / 2) * (-3) * 2) ∧
    balanceTransform 5 0 = (5, 5) :=
  ⟨(balanceTransform_spec (2 / 5) (-1)).1 (by norm_num),
    (balanceTransform_spec (-3) 1).2.1 (by norm_num),
    (balanceTransform_spec 5 0).2.2 rfl⟩

/-- C5: a buffer shorter than 104 bytes makes decode return no result
(`none`) without raising, and makes the encode/write path abort as a
no-op (`none`: nothing written) without propagating an exception. -/
theorem short_buffer_soft_fail (data : List Nat) (s : HearingAidSettings)
    (h : data.length < 104) :
    parse_hearing_aid_settings data = none ∧
    send_hearing_aid_settings data s = none := by
  constructor
  · unfold parse_hearing_aid_settings
    rw [if_pos h]
  · unfold send_hearing_aid_settings
    rw [if_pos h]

/-- Witness for C5 on a concrete 103-byte buffer. -/
theorem short_buffer_soft_fail_witness :
    parse_hearing_aid_settings z103 = none ∧
    send_hearing_aid_settings z103 defaultSettings = none :=
  short_buffer_soft_fail z103 defaultSettings (by norm_num [z103])

/-- C6: when no response PDU arrives within the fixed 2.0-second timeout
(the `none` queue outcome), `read` propagates the failure to its caller,
while `write` and `write_cccd` swallow it and return normally. -/
theorem timeout_policy (h : HandleName) (v : List Nat) :
    ATTManager.read_response none = Except.error () ∧
    (ATTManager.read h none).2 = Except.error () ∧
    (ATTManager.write h v none).2 = Except.ok () ∧
    (ATTManager.write_cccd h v none).2 = Except.ok () ∧
    READ_RESPONSE_TIMEOUT = 2 :=
  ⟨rfl, rfl, rfl, rfl, rfl⟩

/-- C8: for every attribute handle, `read` sends exactly
`[0x0A, handle_lsb, handle_msb]` and returns the next response with its
leading opcode byte stripped; `write` sends `[0x12, handle_lsb,
handle_msb] ++ value`; and `write_cccd` sends the same write-request PDU
addressed to the configuration handle, which is the base handle plus 1. -/
theorem request_pdu_formats (h : HandleName) (v r : List Nat)
    (q : Option (List Nat)) :
    (ATTManager.read h q).1 =
      [OPCODE_READ_REQUEST, ATT_HANDLES h % 256, ATT_HANDLES h / 256 % 256] ∧
    (ATTManager.read h (some r)).2 = Except.ok (r.drop 1) ∧
    (ATTManager.write h v q).1 =
      OPCODE_WRITE_REQUEST :: ATT_HANDLES h % 256 :: ATT_HANDLES h / 256 % 256 :: v ∧
    (ATTManager.write_cccd h v q).1 =
      OPCODE_WRITE_REQUEST :: (ATT_HANDLES h + 1) % 256
        :: (ATT_HANDLES h + 1) / 256 % 256 :: v ∧
    ATT_CCCD_HANDLES h = ATT_HANDLES h + 1 := by
  cases h <;>
    simp [ATTManager.read, ATTManager.write, ATTManager.write_cccd,
      ATTManager.read_response, ATT_HANDLES, ATT_CCCD_HANDLES,
      OPCODE_READ_REQUEST, OPCODE_WRITE_REQUEST] <;>
    decide

/-- C10: the notification branch of the receive loop reads bytes 1 and 2
without a length check, so it is safe exactly when the PDU has at least
3 bytes; on a 1- or 2-byte PDU starting with `0x1B` the index access is
out of range (the error branch is reachable). -/
theorem notify_branch_needs_three_bytes :
    (∀ (ls : List (Nat × List Nat)) (pdu : List Nat), 3 ≤ pdu.length →
      processPdu ls pdu ≠ Except.error ()) ∧
    processPdu [] [OPCODE_HANDLE_VALUE_NTF] = Except.error () ∧
    processPdu [] [OPCODE_HANDLE_VALUE_NTF, 0x2A] = Except.error () := by
  refine ⟨?_, rfl, rfl⟩
  intro ls pdu h
  rcases pdu with _ | ⟨b0, rest⟩
  · simp at h
  · rcases rest with _ | ⟨b1, rest2⟩
    · simp at h
    · rcases rest2 with _ | ⟨b2, value⟩
      · simp at h
      · by_cases hb : b0 = OPCODE_HANDLE_VALUE_NTF
        · simp [processPdu, hb]
        · simp [processPdu, hb]

/-- Witness for C10: a 3-byte notification PDU is processed without error,
while the 1-byte PDU `[0x1B]` hits the out-of-range access. -/
theorem notify_branch_needs_three_bytes_witness :
    processPdu [] [OPCODE_HANDLE_VALUE_NTF, 0x2A, 0x00] ≠ Except.error () ∧
    processPdu [] [OPCODE_HANDLE_VALUE_NTF] = Except.error () :=
  ⟨notify_branch_needs_three_bytes.1 [] [OPCODE_HANDLE_VALUE_NTF, 0x2A, 0x00]
      (by simp),
    notify_branch_needs_three_bytes.2.1⟩

/-- C3: a PDU whose first byte is `0x1B` is decoded as a notification —
little-endian 16-bit handle from bytes 1-2, value from byte 3 on — and
every listener registered for that handle is invoked in registration
order, with nothing put on the response queue (so it is never returned as
a pending read's response); every PDU with any other first byte is handed
to the single waiting requester as a response. -/
theorem notification_demux (ls : List (Nat × List Nat)) (b1 b2 : Nat)
    (value : List Nat) (hb1 : b1 < 256) :
    processPdu ls (OPCODE_HANDLE_VALUE_NTF :: b1 :: b2 :: value) =
      Except.ok ((lookupListeners ls (b1 + 256 * b2)).map
        fun l => LoopEvent.notify l value) ∧
    (∀ p, LoopEvent.response p ∉
      ((lookupListeners ls (b1 + 256 * b2)).map fun l => LoopEvent.notify l value)) ∧
    (∀ (b0 : Nat) (rest : List Nat), b0 ≠ OPCODE_HANDLE_VALUE_NTF →
      processPdu ls (b0 :: rest) = Except.ok [LoopEvent.response (b0 :: rest)]) ∧
    (∀ (h l : Nat), lookupListeners (register_listener ls h l) h =
      lookupListeners ls h ++ [l]) := by
  refine ⟨?_, ?_, ?_, ?_⟩
  · simp [processPdu, lor_shift_eq_add b1 b2 hb1]
  · intro p hm
    simp [List.mem_map] at hm
  · intro b0 rest h
    simp [processPdu, h]
  · intro h l
    exact lookup_register_listener ls h l

/-- Witness for C3: the spec's demux example — PDU `[0x1B, 0x2A, 0x00,
payload]` with two listeners registered for handle `0x2A` invokes both in
registration order. -/
theorem notification_demux_witness :
    processPdu demoListeners [OPCODE_HANDLE_VALUE_NTF, 0x2A, 0x00, 0x07] =
      Except.ok [LoopEvent.notify 1 [0x07], LoopEvent.notify 2 [0x07]] := by
  have h := (notification_demux demoListeners 0x2A 0x00 [0x07] (by norm_num)).1
  exact h.trans (congrArg Except.ok (by decide))

/-- C9: when the receive loop terminates on a hard receive error while the
session is still running, exactly one reconnection attempt is made; if it
fails, the failure is logged and the session remains disconnected with no
further retry and no crash (the result is still `Except.ok`). -/
theorem reconnect_once (ls : List (Nat × List Nat)) (trace : List RecvOutcome)
    (evs : List LoopEvent) (h : runLoop ls trace = Except.ok (evs, true)) :
    listen_notifications ls trace false =
      Except.ok (evs ++ [LoopEvent.reconnect, LoopEvent.reconnectFailed], false) ∧
    listen_notifications ls trace true =
      Except.ok (evs ++ [LoopEvent.reconnect], true) ∧
    (evs ++ [LoopEvent.reconnect, LoopEvent.reconnectFailed]).count
      LoopEvent.reconnect = 1 ∧
    (evs ++ [LoopEvent.reconnect]).count LoopEvent.reconnect = 1 := by
  have hn := runLoop_no_reconnect trace ls evs true h
  refine ⟨?_, ?_, ?_, ?_⟩
  · unfold listen_notifications
    rw [h]
    simp
  · unfold listen_notifications
    rw [h]
    simp
  · rw [List.count_append, List.count_eq_zero.mpr hn.1]
    decide
  · rw [List.count_append, List.count_eq_zero.mpr hn.1]
    decide

/-- Witness for C9: an immediate hard receive error with a failing
reconnect yields exactly the reconnect-attempt and failure-log events and
a disconnected session. -/
theorem reconnect_once_witness :
    listen_notifications [] [RecvOutcome.failure] false =
      Except.ok ([LoopEvent.reconnect, LoopEvent.reconnectFailed], false) ∧
    ([LoopEvent.reconnect, LoopEvent.reconnectFailed] : List LoopEvent).count
      LoopEvent.reconnect = 1 := by
  have h := reconnect_once [] [RecvOutcome.failure] [] rfl
  exact ⟨h.1, h.2.2.1⟩

/-- C4: the decoded record satisfies `net_amplification =
clamp((left_amp + right_amp) / 2, -1, 1)` and `balance =
clamp(right_amp - left_amp, -1, 1)` (values of the per-ear bit patterns),
so both derived values lie in `[-1, 1]` whatever the per-ear inputs. -/
theorem parse_derived_clamped (data : List Nat) (s : HearingAidSettings)
    (hs : parse_hearing_aid_settings data = some s) :
    s.net_amplification =
      max (-1) (min 1 ((f32val s.left_amplification
        + f32val s.right_amplification) / 2)) ∧
    s.balance =
      max (-1) (min 1 (f32val s.right_amplification
        - f32val s.left_amplification)) ∧
    -1 ≤ s.net_amplification ∧ s.net_amplification ≤ 1 ∧
    -1 ≤ s.balance ∧ s.balance ≤ 1 := by
  unfold parse_hearing_aid_settings at hs
  by_cases h : data.length < 104
  · rw [if_pos h] at hs
    exact absurd hs (by simp)
  · rw [if_neg h] at hs
    have hrec := Option.some.inj hs
    subst hrec
    exact ⟨rfl, rfl, le_max_left _ _,
      max_le (by norm_num) (min_le_left _ _),
      le_max_left _ _, max_le (by norm_num) (min_le_left _ _)⟩

/-- Witness for C4 on the all-zero valid buffer. -/
theorem parse_derived_clamped_witness :
    ∃ s, parse_hearing_aid_settings z104 = some s ∧
      (-1 ≤ s.net_amplification ∧ s.net_amplification ≤ 1 ∧
        -1 ≤ s.balance ∧ s.balance ≤ 1) := by
  have hs : (parse_hearing_aid_settings z104).isSome = true := by decide
  obtain ⟨s, h⟩ := Option.isSome_iff_exists.mp hs
  exact ⟨s, h, (parse_derived_clamped z104 s h).2.2⟩

/-- C7: encode is a patch of the prior buffer — for every prior buffer of
length at least 104 (the case where the write proceeds) and every settings
record, the produced buffer has the same length, offset 2 is set to
`0x64`, and bytes 0, 1, 3 and every byte at offset 104 or beyond are
unchanged (only offset 2 and the field offsets 4 through 103 are
rewritten). -/
theorem encode_patch_frame (data : List Nat) (s : HearingAidSettings)
    (out : List Nat) (h8l : s.left_eq.length = 8) (h8r : s.right_eq.length = 8)
    (hsend : send_hearing_aid_settings data s = some out) :
    out.length = data.length ∧
    out.getD 2 0 = 0x64 ∧
    ∀ i, i = 0 ∨ i = 1 ∨ i = 3 ∨ 104 ≤ i → out.getD i 0 = data.getD i 0 := by
  unfold send_hearing_aid_settings at hsend
  by_cases h : data.length < 104
  · rw [if_pos h] at hsend
    exact absurd hsend (by simp)
  · rw [if_neg h] at hsend
    have hout := Option.some.inj hsend
    subst hout
    refine ⟨length_patchSettingsBuffer data s, getD_patch_marker data s (by omega), ?_⟩
    intro i hi
    exact getD_patch_untouched data s h8l h8r i (by omega) (by omega)

/-- Witness for C7 on the all-zero valid buffer and a concrete record. -/
theorem encode_patch_frame_witness :
    (patchSettingsBuffer z104 defaultSettings).length = z104.length ∧
    (patchSettingsBuffer z104 defaultSettings).getD 2 0 = 0x64 ∧
    ∀ i, i = 0 ∨ i = 1 ∨ i = 3 ∨ 104 ≤ i →
      (patchSettingsBuffer z104 defaultSettings).getD i 0 = z104.getD i 0 :=
  encode_patch_frame z104 defaultSettings (patchSettingsBuffer z104 defaultSettings)
    (by decide) (by decide)
    (by unfold send_hearing_aid_settings
        rw [if_neg (by norm_num [z104])])

/-- C1 counterexample: on a valid 104-byte buffer whose left
conversation-boost field holds the float 0.7, decode succeeds but
re-encoding the decoded record against the same buffer changes byte 44
(from `0x33` to `0x00`, the low byte of the canonical 1.0 pattern), an
offset different from 2 — so the round trip is not byte-identical outside
offset 2, refuting the claim as stated. -/
theorem roundtrip_exact_fails :
    parse_hearing_aid_settings cex104 = some (parsedRecord cex104) ∧
    (patchSettingsBuffer cex104 (parsedRecord cex104)).getD 44 0 = 0 ∧
    cex104.getD 44 0 = 0x33 ∧ (44 : Nat) ≠ 2 := by
  refine ⟨parse_eq_parsedRecord cex104 (by decide), ?_, by decide, by decide⟩
  have hw : readU32LE cex104 44 = 0x3F333333 := by decide
  have hval : f32val 0x3F333333 > 1 / 2 := by
    simp only [f32val]
    norm_num
  have hconv : (parsedRecord cex104).left_conversation_boost = true := by
    show decide (f32val (readU32LE cex104 44) > 1 / 2) = true
    rw [hw]
    exact decide_eq_true hval
  unfold patchSettingsBuffer
  rw [getD_packU32LE_ne _ _ _ _ (by omega),
    getD_packU32LE_ne _ _ _ _ (by omega),
    getD_packU32LE_ne _ _ _ _ (by omega),
    getD_packU32LE_ne _ _ _ _ (by omega),
    getD_packU32LE_ne _ _ _ _ (by omega),
    getD_packList_ne _ _ _ _ (by omega),
    getD_packU32LE_ne _ _ _ _ (by omega),
    getD_packU32LE _ 44 _ 44
      (by simp only [length_packU32LE, length_packList, List.length_set]; decide),
    if_pos (by omega), hconv]
  decide

/-- C1 (amended): for every buffer of length at least 104 whose entries
are bytes, decode succeeds, and encoding the decoded record back against
the buffer yields a buffer byte-identical to it at every offset except
offset 2 (always set to `0x64`) and the conversation-boost fields at
offsets 44-47 and 92-95, which encode rewrites as the canonical binary32
encoding of 1.0 or 0.0 according to the decoded booleans. -/
theorem settings_roundtrip (data : List Nat) (hlen : 104 ≤ data.length)
    (hb : ∀ b ∈ data, b < 256) :
    ∃ s, parse_hearing_aid_settings data = some s ∧
      send_hearing_aid_settings data s = some (patchSettingsBuffer data s) ∧
      (patchSettingsBuffer data s).getD 2 0 = 0x64 ∧
      ∀ i, i ≠ 2 → ¬(44 ≤ i ∧ i < 48) → ¬(92 ≤ i ∧ i < 96) →
        (patchSettingsBuffer data s).getD i 0 = data.getD i 0 := by
  refine ⟨parsedRecord data, parse_eq_parsedRecord data (by omega), ?_,
    getD_patch_marker data (parsedRecord data) (by omega), ?_⟩
  · unfold send_hearing_aid_settings
    rw [if_neg (by omega)]
  · intro i h2 hc1 hc2
    exact getD_patch_parsedRecord data hlen hb i h2 hc1 hc2

/-- Witness for C1 (amended) on the all-zero valid buffer. -/
theorem settings_roundtrip_witness :
    ∃ s, parse_hearing_aid_settings z104 = some s ∧
      send_hearing_aid_settings z104 s = some (patchSettingsBuffer z104 s) ∧
      (patchSettingsBuffer z104 s).getD 2 0 = 0x64 ∧
      ∀ i, i ≠ 2 → ¬(44 ≤ i ∧ i < 48) → ¬(92 ≤ i ∧ i < 96) →
        (patchSettingsBuffer z104 s).getD i 0 = z104.getD i 0 :=
  settings_roundtrip z104 (by norm_num [z104])
    (by intro b hbm
        rw [z104, List.mem_replicate] at hbm
        omega)
